import Mathlib

/-!
Shallow embedding of `drape_frontend/animation_system.cpp` (namespace `df`).

Doubles are modelled as rationals (`ℚ`); `double` division is modelled by
exact rational division, and the one division site that can divide by zero
(`Interpolator::GetT` with a zero duration, where IEEE arithmetic yields
`0.0 / 0.0 = NaN`) is reified as an `Option` result whose `none` stands for
the NaN.  The abstract C++ class `Animation` is modelled as
a record carrying exactly the data the scheduler observes through the
virtual interface: its mixability and interruptibility flags, its object
set, its per-object property sets, the values its `GetProperty` reports,
and an elapsed-time/duration pair driving `Advance`/`IsFinished` (every
concrete subclass advances by accumulating elapsed seconds in its
interpolators).  Calls of the virtual hooks `OnStart`, `OnFinish` and
`Interrupt`, and of `Advance` on a member, are recorded as an event trace.
`std::map` (the property cache) is modelled as an association list with
insert-overwrites semantics; `std::set` as a duplicate-free list.
-/

set_option linter.unusedVariables false
set_option linter.unnecessarySimpa false

/-- Model of `Animation::TPropValue = boost::variant<double, m2::PointD>`. -/
inductive PropValue
  | num (value : ℚ)
  | pt (x y : ℚ)
deriving DecidableEq

/-- Observable calls of the virtual hooks made by the scheduler and the
composite animations: `Interrupt`, `OnStart`, `OnFinish`, and `Advance` on a
member animation (identified by the member's id). -/
inductive Event
  | interrupt (id : Nat)
  | onStart (id : Nat)
  | onFinish (id : Nat)
  | advanced (id : Nat)
deriving DecidableEq

/-- Scheduler-facing model of the abstract C++ class `Animation`
(`animation_system.cpp`, base-class data plus the virtual interface).
`objects` models `m_objects`; `propsMap object` models `GetProperties(object)`;
`values` models the values the virtual `GetProperty` reports;
`elapsed`/`duration` model the accumulated elapsed seconds and the finish
threshold that every concrete subclass realises through its interpolators. -/
structure Animation where
  id : Nat
  couldBeMixed : Bool
  couldBeInterrupted : Bool
  objects : List Nat
  propsMap : List (Nat × List Nat)
  values : List ((Nat × Nat) × PropValue)
  elapsed : ℚ
  duration : ℚ
deriving DecidableEq

/-- Enumerator `Animation::MapPlane` of `TObject`. -/
def Animation.MapPlane : Nat := 0

/-- Enumerator `Animation::Position` of `TProperty`. -/
def Animation.Position : Nat := 0

/-- Enumerator `Animation::Scale` of `TProperty`. -/
def Animation.Scale : Nat := 1

/-- Enumerator `Animation::Angle` of `TProperty`. -/
def Animation.Angle : Nat := 2

/-- Virtual `Animation::GetProperties(object)`: the property set this
animation drives on `object`. -/
def Animation.GetProperties (a : Animation) (object : Nat) : List Nat :=
  match a.propsMap.find? (fun e => decide (e.1 = object)) with
  | some e => e.2
  | none => []

/-- Virtual `Animation::HasObject(object)`. -/
def Animation.HasObject (a : Animation) (object : Nat) : Bool :=
  a.objects.contains object

/-- Virtual `Animation::HasProperty(object, property)`, as implemented by
`FollowAnimation::HasProperty` and `ParallelAnimation::HasProperty`:
the object is touched and the property is in its set. -/
def Animation.HasProperty (a : Animation) (object property : Nat) : Bool :=
  a.HasObject object && (a.GetProperties object).contains property

/-- Virtual `Animation::GetProperty(object, property)`: the current value
this animation reports for the pair. -/
def Animation.GetProperty (a : Animation) (object property : Nat) : PropValue :=
  match a.values.find? (fun e => decide (e.1 = (object, property))) with
  | some e => e.2
  | none => PropValue.num 0

/-- `Animation::CouldBeInterrupted()`. -/
def Animation.CouldBeInterrupted (a : Animation) : Bool := a.couldBeInterrupted

/-- Emptiness of the `set_intersection` computed in
`Animation::CouldBeMixedWith(TObject, TObjectProperties const &)`. -/
def listIntersectionEmpty (xs ys : List Nat) : Bool :=
  xs.all (fun x => !(ys.contains x))

/-- `Animation::CouldBeMixedWith(TObject object, TObjectProperties const & properties)`
(animation_system.cpp:27-39): false unless `m_couldBeMixed`, then true iff the
own property set on `object` does not intersect `properties`. -/
def Animation.CouldBeMixedWithProps (a : Animation) (object : Nat)
    (properties : List Nat) : Bool :=
  if !a.couldBeMixed then false
  else listIntersectionEmpty (a.GetProperties object) properties

/-- `Animation::CouldBeMixedWith(Animation const & animation)`
(animation_system.cpp:41-54): false if `!m_couldBeMixed || animation.m_couldBeMixed`;
otherwise, for every object of `animation` also held by `this`, the per-object
property-disjointness check must pass. -/
def Animation.CouldBeMixedWith (a : Animation) (animation : Animation) : Bool :=
  if !a.couldBeMixed || animation.couldBeMixed then false
  else animation.objects.all (fun object =>
    if !(a.HasObject object) then true
    else a.CouldBeMixedWithProps object (animation.GetProperties object))

/-- Virtual `Animation::Advance(elapsedSeconds)`: every concrete subclass
adds the elapsed seconds to its interpolators' elapsed time. -/
def Animation.Advance (a : Animation) (elapsedSeconds : ℚ) : Animation :=
  { a with elapsed := a.elapsed + elapsedSeconds }

/-- Virtual `Animation::IsFinished()`: the accumulated elapsed time has
passed the animation's finish threshold (strict, as in
`Interpolator::IsFinished`). -/
def Animation.IsFinished (a : Animation) : Bool :=
  decide (a.elapsed > a.duration)

/-- The property cache `map<pair<TObject, TProperty>, TPropValue>` of
`AnimationSystem`, modelled as an association list with unique keys. -/
abbrev PCache := List ((Nat × Nat) × PropValue)

/-- `m_propertyCache.find(key)`, returning the mapped value. -/
def cacheLookup (cache : PCache) (key : Nat × Nat) : Option PropValue :=
  (cache.find? (fun e => decide (e.1 = key))).map (fun e => e.2)

/-- `m_propertyCache.erase(key)`. -/
def cacheErase (cache : PCache) (key : Nat × Nat) : PCache :=
  cache.filter (fun e => decide (¬e.1 = key))

/-- `m_propertyCache[key] = value`: overwrite any previous entry. -/
def cacheInsert (cache : PCache) (key : Nat × Nat) (value : PropValue) : PCache :=
  cacheErase cache key ++ [(key, value)]

/-- `AnimationSystem::SaveAnimationResult(Animation const & animation)`
(animation_system.cpp:557-566): for every object of the animation and every
property it declares on that object, store the animation's current value in
the cache. -/
def SaveAnimationResult (cache : PCache) (animation : Animation) : PCache :=
  animation.objects.foldl (fun c object =>
    (animation.GetProperties object).foldl (fun c2 property =>
      cacheInsert c2 (object, property) (animation.GetProperty object property)) c) cache

/-- State of the scheduler `AnimationSystem`: `m_animationChain` is a list of
Groups (each a list of animations), `m_propertyCache` the property cache. -/
structure AnimationSystem where
  animationChain : List (List Animation)
  propertyCache : PCache
deriving DecidableEq

/-- The freshly constructed `AnimationSystem` (empty chain, empty cache). -/
def AnimationSystem.empty : AnimationSystem :=
  { animationChain := [], propertyCache := [] }

/-- `AnimationSystem::AnimationExists(object)` (animation_system.cpp:447-462):
returns false immediately when the chain is empty; otherwise true iff some
animation of the front Group has the object, or some cache key has the object
as its first component. -/
def AnimationSystem.AnimationExists (st : AnimationSystem) (object : Nat) : Bool :=
  match st.animationChain with
  | [] => false
  | front :: _ =>
    front.any (fun anim => anim.HasObject object)
      || st.propertyCache.any (fun e => decide (e.1.1 = object))

/-- Inner loop of `AnimationSystem::AddAnimation` over one Group
(animation_system.cpp:475-494): scan the members in order; a conflicting
member (its `CouldBeMixedWith` of the new animation is false) stops the scan
with rejection unless `force` holds and the member is interruptible, in which
case the member is evicted (interrupted, saved, erased) and the scan goes on.
Returns the mutated Group, the acceptance flag (`couldBeMixed`), and the
evicted members in eviction order. -/
def scanGroup (animation : Animation) (force : Bool) :
    List Animation → List Animation × Bool × List Animation
  | [] => ([], true, [])
  | anim :: rest =>
    if !(anim.CouldBeMixedWith animation) then
      if !force || !anim.CouldBeInterrupted then
        (anim :: rest, false, [])
      else
        let r := scanGroup animation force rest
        (r.1, r.2.1, anim :: r.2.2)
    else
      let r := scanGroup animation force rest
      (anim :: r.1, r.2.1, r.2.2)

/-- Outer loop of `AnimationSystem::AddAnimation` over the chain
(animation_system.cpp:472-501): try each Group in order; each evicted member
is interrupted and saved to the cache; on acceptance the new animation is
started and appended to that Group.  Returns the (possibly mutated) chain,
the cache, the event trace, and whether the animation was placed. -/
def addLoop (animation : Animation) (force : Bool) :
    List (List Animation) → PCache → List (List Animation) × PCache × List Event × Bool
  | [], cache => ([], cache, [], false)
  | lst :: rest, cache =>
    let s := scanGroup animation force lst
    let cache2 := s.2.2.foldl SaveAnimationResult cache
    let evs := s.2.2.map (fun a => Event.interrupt a.id)
    if s.2.1 then
      ((s.1 ++ [animation]) :: rest, cache2, evs ++ [Event.onStart animation.id], true)
    else
      let r := addLoop animation force rest cache2
      (s.1 :: r.1, r.2.1, evs ++ r.2.2.1, r.2.2.2)

/-- `AnimationSystem::PushAnimation` (animation_system.cpp:506-512): start the
animation and append a brand-new singleton Group at the end of the chain. -/
def AnimationSystem.PushAnimation (st : AnimationSystem) (animation : Animation) :
    AnimationSystem × List Event :=
  ({ st with animationChain := st.animationChain ++ [[animation]] },
   [Event.onStart animation.id])

/-- `AnimationSystem::AddAnimation(animation, force)`
(animation_system.cpp:470-504): run the group scan over the chain; if no
Group accepted the animation, push it as a new Group. -/
def AnimationSystem.AddAnimation (st : AnimationSystem) (animation : Animation)
    (force : Bool) : AnimationSystem × List Event :=
  let r := addLoop animation force st.animationChain st.propertyCache
  if r.2.2.2 then
    ({ animationChain := r.1, propertyCache := r.2.1 }, r.2.2.1)
  else
    let p := AnimationSystem.PushAnimation
      { animationChain := r.1, propertyCache := r.2.1 } animation
    (p.1, r.2.2.1 ++ p.2)

/-- Loop body of `AnimationSystem::Advance` over the front Group
(animation_system.cpp:520-534): advance each member; a member that is then
finished has `OnFinish` invoked, its result saved to the cache, and is
erased from the Group. -/
def advanceLoop (elapsedSeconds : ℚ) :
    List Animation → PCache → List Animation × PCache × List Event
  | [], cache => ([], cache, [])
  | anim :: rest, cache =>
    let anim2 := anim.Advance elapsedSeconds
    if anim2.IsFinished then
      let r := advanceLoop elapsedSeconds rest (SaveAnimationResult cache anim2)
      (r.1, r.2.1, Event.advanced anim.id :: Event.onFinish anim.id :: r.2.2)
    else
      let r := advanceLoop elapsedSeconds rest cache
      (anim2 :: r.1, r.2.1, Event.advanced anim.id :: r.2.2)

/-- `AnimationSystem::Advance(elapsedSeconds)` (animation_system.cpp:514-535):
no-op on an empty chain; otherwise run the member loop on the front Group
only, leaving every later Group untouched. -/
def AnimationSystem.Advance (st : AnimationSystem) (elapsedSeconds : ℚ) :
    AnimationSystem × List Event :=
  match st.animationChain with
  | [] => (st, [])
  | front :: rest =>
    let r := advanceLoop elapsedSeconds front st.propertyCache
    ({ animationChain := r.1 :: rest, propertyCache := r.2.1 }, r.2.2)

/-- Iterated `Advance`: one call per frame delta in the list. -/
def AnimationSystem.AdvanceMany (st : AnimationSystem) (dts : List ℚ) : AnimationSystem :=
  dts.foldl (fun s d => (s.Advance d).1) st

/-- The scan of the front Group performed by `AnimationSystem::GetProperty`
(animation_system.cpp:539-546): the first front-Group animation having the
property, if any (none when the chain is empty). -/
def AnimationSystem.headFind (st : AnimationSystem) (object property : Nat) :
    Option Animation :=
  match st.animationChain with
  | [] => none
  | front :: _ => front.find? (fun anim => anim.HasProperty object property)

/-- `AnimationSystem::GetProperty(object, property, current)`
(animation_system.cpp:537-555): first front-Group animation with the property
wins; else a cache hit is returned and its entry erased; else the
caller-supplied `current` value is returned.  The (possibly updated) system
state is returned alongside the value. -/
def AnimationSystem.GetProperty (st : AnimationSystem) (object property : Nat)
    (current : PropValue) : PropValue × AnimationSystem :=
  match st.headFind object property with
  | some anim => (anim.GetProperty object property, st)
  | none =>
    match cacheLookup st.propertyCache (object, property) with
    | some value =>
      (value, { st with propertyCache := cacheErase st.propertyCache (object, property) })
    | none => (current, st)

/-- State of the `Interpolator` base class (animation_system.cpp:56-99). -/
structure Interpolator where
  elapsedTime : ℚ
  duration : ℚ
  delay : ℚ
deriving DecidableEq

/-- `Interpolator::Interpolator(duration, delay)`: elapsed time starts at 0
(the constructor asserts `duration >= 0`). -/
def Interpolator.mkI (duration delay : ℚ) : Interpolator :=
  { elapsedTime := 0, duration := duration, delay := delay }

/-- `Interpolator::IsFinished()`: `m_elapsedTime > m_duration + m_delay`. -/
def Interpolator.IsFinished (i : Interpolator) : Bool :=
  decide (i.elapsedTime > i.duration + i.delay)

/-- `Interpolator::Advance(elapsedSeconds)`: accumulate elapsed time. -/
def Interpolator.Advance (i : Interpolator) (elapsedSeconds : ℚ) : Interpolator :=
  { i with elapsedTime := i.elapsedTime + elapsedSeconds }

/-- `Interpolator::SetMaxDuration(maxDuration)`. -/
def Interpolator.SetMaxDuration (i : Interpolator) (maxDuration : ℚ) : Interpolator :=
  { i with duration := min i.duration maxDuration }

/-- `Interpolator::GetT()` (animation_system.cpp:83-89): 1 once finished,
otherwise `max(m_elapsedTime - m_delay, 0) / m_duration`.  The IEEE division
is modelled as partial: an unfinished interpolator with `m_duration = 0` has
`m_elapsedTime ≤ m_delay`, so the source computes `0.0 / 0.0` — the result
is NaN, represented here by `none`; every other division is exact and
returned as `some`. -/
def Interpolator.GetT (i : Interpolator) : Option ℚ :=
  if i.IsFinished then some 1
  else if i.duration = 0 then none
  else some (max (i.elapsedTime - i.delay) 0 / i.duration)

/-- The rational value `GetT()` produces on its defined paths (used to state
its properties when the duration is nonzero). -/
def Interpolator.tval (i : Interpolator) : ℚ :=
  if i.IsFinished then 1
  else max (i.elapsedTime - i.delay) 0 / i.duration

/-- A finite sequence of `Advance` calls. -/
def Interpolator.AdvanceList (i : Interpolator) (dts : List ℚ) : Interpolator :=
  dts.foldl Interpolator.Advance i

/-- `my::AlmostEqualAbs(x, y, eps)`: `fabs(x - y) < eps`. -/
def AlmostEqualAbs (x y eps : ℚ) : Bool :=
  decide (|x - y| < eps)

/-- `CalcAnimSpeedDuration(pxDiff, pxSpeed)` (animation_system.cpp:15-23):
0 when `pxDiff` is within `1e-5` of 0, else `fabs(pxDiff) / pxSpeed`. -/
def CalcAnimSpeedDuration (pxDiff pxSpeed : ℚ) : ℚ :=
  if AlmostEqualAbs pxDiff 0 (1 / 100000) then 0
  else |pxDiff| / pxSpeed

/-- `ScaleInterpolator::GetScaleDuration(startScale, endScale)`
(animation_system.cpp:168-177): swap so that the ratio is the larger over
the smaller, then `CalcAnimSpeedDuration(ratio, 2.0 / 0.3)`; the swap is
inlined as a conditional on which argument is larger. -/
def GetScaleDuration (startScale endScale : ℚ) : ℚ :=
  if startScale > endScale then
    CalcAnimSpeedDuration (startScale / endScale) (2 / (3 / 10))
  else
    CalcAnimSpeedDuration (endScale / startScale) (2 / (3 / 10))

/-- State of `ScaleInterpolator` (animation_system.cpp:179-196). -/
structure ScaleInterpolator where
  interp : Interpolator
  startScale : ℚ
  endScale : ℚ
  scale : ℚ
deriving DecidableEq

/-- `ScaleInterpolator::ScaleInterpolator(startScale, endScale)` (delay 0). -/
def ScaleInterpolator.mkS (startScale endScale : ℚ) : ScaleInterpolator :=
  { interp := Interpolator.mkI (GetScaleDuration startScale endScale) 0,
    startScale := startScale, endScale := endScale, scale := startScale }

/-- State of `PositionInterpolator` (construction via the external
`ScreenBase` projection is not modelled; `GetProperty` only reads the
current `m_position`). -/
structure PositionInterpolator where
  interp : Interpolator
  startPosition : ℚ × ℚ
  endPosition : ℚ × ℚ
  position : ℚ × ℚ
deriving DecidableEq

/-- State of `AngleInterpolator`. -/
structure AngleInterpolator where
  interp : Interpolator
  startAngle : ℚ
  endAngle : ℚ
  angle : ℚ
deriving DecidableEq

/-- State of `FollowAnimation` (animation_system.cpp:198-319): the optional
sub-interpolators and the accumulated property set. -/
structure FollowAnimation where
  objects : List Nat
  properties : List Nat
  positionInterpolator : Option PositionInterpolator
  angleInterpolator : Option AngleInterpolator
  scaleInterpolator : Option ScaleInterpolator
deriving DecidableEq

/-- The parameterless `FollowAnimation::FollowAnimation()`
(animation_system.cpp:209-213): inserts `MapPlane`, no interpolators yet. -/
def FollowAnimation.mkF : FollowAnimation :=
  { objects := [Animation.MapPlane], properties := [],
    positionInterpolator := none, angleInterpolator := none,
    scaleInterpolator := none }

/-- Insertion into a `std::set` modelled as a duplicate-free list. -/
def setInsert (l : List Nat) (x : Nat) : List Nat :=
  if x ∈ l then l else l ++ [x]

/-- `FollowAnimation::SetScale(startScale, endScale)`
(animation_system.cpp:234-241): only when the scales differ is a
`ScaleInterpolator` created and the `Scale` property declared. -/
def FollowAnimation.SetScale (f : FollowAnimation) (startScale endScale : ℚ) :
    FollowAnimation :=
  if startScale ≠ endScale then
    { f with scaleInterpolator := some (ScaleInterpolator.mkS startScale endScale),
             properties := setInsert f.properties Animation.Scale }
  else f

/-- `FollowAnimation::GetProperty(object, property)`
(animation_system.cpp:293-319), with debug assertions reified: the returned
`Bool` is true exactly when some `ASSERT` in the call fires (object not
`MapPlane`, the requested property's interpolator absent, or an unknown
property); the `PropValue` is what the non-debug build returns, which is the
degenerate `0.0` whenever the switch falls through to the final return. -/
def FollowAnimation.GetProperty (f : FollowAnimation) (object property : Nat) :
    Bool × PropValue :=
  let objectAssert : Bool := decide (¬object = Animation.MapPlane)
  if property = Animation.Position then
    match f.positionInterpolator with
    | some i => (objectAssert, PropValue.pt i.position.1 i.position.2)
    | none => (true, PropValue.num 0)
  else if property = Animation.Scale then
    match f.scaleInterpolator with
    | some i => (objectAssert, PropValue.num i.scale)
    | none => (true, PropValue.num 0)
  else if property = Animation.Angle then
    match f.angleInterpolator with
    | some i => (objectAssert, PropValue.num i.angle)
    | none => (true, PropValue.num 0)
  else (true, PropValue.num 0)

/-- State of `SequenceAnimation` (animation_system.cpp:374-425): the ordered
pipeline of member animations. -/
structure SequenceAnimation where
  animations : List Animation
deriving DecidableEq

/-- `SequenceAnimation::Advance(elapsedSeconds)` (animation_system.cpp:415-425):
no-op when empty; otherwise advance only the front member, and when the front
is then finished, invoke its `OnFinish` and pop it.  No `OnStart` is invoked
on the newly promoted front. -/
def SequenceAnimation.Advance (s : SequenceAnimation) (elapsedSeconds : ℚ) :
    SequenceAnimation × List Event :=
  match s.animations with
  | [] => (s, [])
  | front :: rest =>
    let front2 := front.Advance elapsedSeconds
    if front2.IsFinished then
      (SequenceAnimation.mk rest, [Event.advanced front.id, Event.onFinish front.id])
    else
      (SequenceAnimation.mk (front2 :: rest), [Event.advanced front.id])

/-- A mixable animation on object 0 (counterexample instance for the
two-mixable-animations scenario). -/
def animA : Animation :=
  { id := 1, couldBeMixed := true, couldBeInterrupted := true,
    objects := [0], propsMap := [(0, [0])],
    values := [((0, 0), PropValue.num 1)], elapsed := 0, duration := 1 }

/-- A mixable animation on object 1, disjoint from `animA`. -/
def animB : Animation :=
  { id := 2, couldBeMixed := true, couldBeInterrupted := true,
    objects := [1], propsMap := [(1, [0])],
    values := [((1, 0), PropValue.num 2)], elapsed := 0, duration := 1 }

/-- A mixable animation on object 0 (witness instance). -/
def animA2 : Animation :=
  { id := 3, couldBeMixed := true, couldBeInterrupted := true,
    objects := [0], propsMap := [(0, [0])],
    values := [((0, 0), PropValue.num 3)], elapsed := 0, duration := 1 }

/-- A non-mixable animation on object 1, disjoint from `animA2`. -/
def animB2 : Animation :=
  { id := 4, couldBeMixed := false, couldBeInterrupted := true,
    objects := [1], propsMap := [(1, [0])],
    values := [((1, 0), PropValue.num 4)], elapsed := 0, duration := 1 }

/-- Claim C3, counterexample: the claim asserts `GetScaleDuration(s, s) = 0`
for every scale `s`, but at `s = 2` the source computes the ratio `2 / 2 = 1`,
which is not within `1e-5` of `0`, and returns `1 / (2.0 / 0.3) = 0.15`. -/
theorem getScaleDuration_equal_counterexample :
    GetScaleDuration 2 2 = 3 / 20 ∧ GetScaleDuration 2 2 ≠ 0 := by
  have h : GetScaleDuration 2 2 = 3 / 20 := by
    norm_num [GetScaleDuration, CalcAnimSpeedDuration, AlmostEqualAbs]
  exact ⟨h, by rw [h]; norm_num⟩

/-- Claim C3, amended: `GetScaleDuration` is symmetric in its two arguments
(the swap makes the computed ratio order-independent); but for equal nonzero
scales the duration is `0.15` (the ratio `1` divided by the zoom speed
`2.0 / 0.3`), not `0`. -/
theorem getScaleDuration_symm_and_equal (a b s : ℚ) (hs : s ≠ 0) :
    GetScaleDuration a b = GetScaleDuration b a ∧ GetScaleDuration s s = 3 / 20 := by
  constructor
  · unfold GetScaleDuration
    rcases lt_trichotomy a b with h | h | h
    · rw [if_neg (not_lt.mpr h.le), if_pos h]
    · subst h; rfl
    · rw [if_pos h, if_neg (not_lt.mpr h.le)]
  · unfold GetScaleDuration
    rw [if_neg (lt_irrefl s), div_self hs]
    norm_num [CalcAnimSpeedDuration, AlmostEqualAbs]

/-- Witness for `getScaleDuration_symm_and_equal` at `a = 2`, `b = 6`,
`s = 2`. -/
theorem getScaleDuration_symm_and_equal_witness :
    GetScaleDuration 2 6 = GetScaleDuration 6 2 ∧ GetScaleDuration 2 2 = 3 / 20 :=
  getScaleDuration_symm_and_equal 2 6 2 (by norm_num)

/-- A sequence of `Advance` calls never changes `m_duration` or `m_delay`. -/
theorem advanceList_fields (i : Interpolator) (dts : List ℚ) :
    (i.AdvanceList dts).duration = i.duration ∧ (i.AdvanceList dts).delay = i.delay := by
  induction dts generalizing i with
  | nil => exact ⟨rfl, rfl⟩
  | cons d ds ih =>
    simpa [Interpolator.AdvanceList, Interpolator.Advance]
      using ih { i with elapsedTime := i.elapsedTime + d }

/-- `tval` is non-negative whenever the duration is non-negative. -/
theorem tval_nonneg (i : Interpolator) (hd : 0 ≤ i.duration) : 0 ≤ i.tval := by
  unfold Interpolator.tval
  split
  · norm_num
  · exact div_nonneg (le_max_right _ _) hd

/-- `tval` is at most 1 whenever the duration is non-negative. -/
theorem tval_le_one (i : Interpolator) (hd : 0 ≤ i.duration) : i.tval ≤ 1 := by
  unfold Interpolator.tval
  split
  · norm_num
  · rename_i h
    have hle : i.elapsedTime ≤ i.duration + i.delay := by
      simpa [Interpolator.IsFinished, not_lt] using h
    exact div_le_one_of_le₀ (max_le (by linarith) hd) hd

/-- `tval` equals 1 once the elapsed time has passed duration plus delay. -/
theorem tval_pinned (i : Interpolator) (h : i.elapsedTime > i.duration + i.delay) :
    i.tval = 1 := by
  simp [Interpolator.tval, Interpolator.IsFinished, h]

/-- `tval` is monotone in the elapsed time (duration and delay fixed,
duration non-negative). -/
theorem tval_mono (e1 e2 d del : ℚ) (hd : 0 ≤ d) (h : e1 ≤ e2) :
    (Interpolator.mk e1 d del).tval ≤ (Interpolator.mk e2 d del).tval := by
  by_cases h1 : (Interpolator.mk e1 d del).IsFinished
  · have h2 : (Interpolator.mk e2 d del).IsFinished = true := by
      simp only [Interpolator.IsFinished, decide_eq_true_eq] at h1 ⊢
      exact lt_of_lt_of_le h1 h
    simp [Interpolator.tval, h1, h2]
  · by_cases h2 : (Interpolator.mk e2 d del).IsFinished
    · calc (Interpolator.mk e1 d del).tval ≤ 1 := tval_le_one _ hd
        _ = (Interpolator.mk e2 d del).tval := by simp [Interpolator.tval, h2]
    · unfold Interpolator.tval
      rw [if_neg h1, if_neg h2]
      rcases hd.eq_or_lt with hd0 | hd0
      · rw [← hd0]
        simp
      · have hnum : max (e1 - del) 0 ≤ max (e2 - del) 0 :=
          max_le_max (by linarith) le_rfl
        exact (div_le_div_iff_of_pos_right hd0).mpr hnum

/-- On a nonzero duration, `GetT` is defined and produces `tval`. -/
theorem getT_eq_tval (i : Interpolator) (hd : ¬i.duration = 0) :
    i.GetT = some i.tval := by
  unfold Interpolator.GetT Interpolator.tval
  rw [if_neg hd, apply_ite some]

/-- Claim C4, counterexample: an `Interpolator` constructed with duration 0
and delay 0 (both allowed by the claim's `duration ≥ 0`, `delay ≥ 0`), after
the empty sequence of `Advance` calls, is not finished (`0 > 0 + 0` fails),
so the source computes `max(0.0 - 0.0, 0.0) / 0.0 = 0.0 / 0.0` — the IEEE
NaN, modelled as `none` — and `GetT()` is not a value in `[0, 1]`. -/
theorem interpolator_getT_zero_duration_counterexample :
    ((Interpolator.mkI 0 0).AdvanceList []).IsFinished = false
    ∧ ((Interpolator.mkI 0 0).AdvanceList []).GetT = none := by
  constructor
  · norm_num [Interpolator.AdvanceList, Interpolator.mkI, Interpolator.IsFinished]
  · norm_num [Interpolator.AdvanceList, Interpolator.mkI, Interpolator.GetT,
      Interpolator.IsFinished]

/-- Claim C4, amended: for an `Interpolator` constructed with POSITIVE
duration and non-negative delay, after any finite sequence of non-negative
`Advance` calls, `GetT()` is a defined value lying in `[0, 1]`; a further
non-negative `Advance` keeps it defined and never decreases it; and it
equals 1 whenever the elapsed time exceeds duration + delay.  (With
duration 0 and the interpolator not yet finished, the source divides
`0.0` by `0.0` and `GetT()` is NaN.) -/
theorem interpolator_getT_spec (duration delay : ℚ) (hdur : 0 < duration)
    (hdel : 0 ≤ delay) (dts : List ℚ) (hdts : ∀ d ∈ dts, 0 ≤ d)
    (dt : ℚ) (hdt : 0 ≤ dt) :
    ∃ t1 t2 : ℚ,
      ((Interpolator.mkI duration delay).AdvanceList dts).GetT = some t1
      ∧ (((Interpolator.mkI duration delay).AdvanceList dts).Advance dt).GetT = some t2
      ∧ 0 ≤ t1 ∧ t1 ≤ 1 ∧ t1 ≤ t2
      ∧ (((Interpolator.mkI duration delay).AdvanceList dts).elapsedTime
            > duration + delay → t1 = 1) := by
  have hfields := advanceList_fields (Interpolator.mkI duration delay) dts
  have hdur2 : 0 ≤ ((Interpolator.mkI duration delay).AdvanceList dts).duration := by
    rw [hfields.1]; exact hdur.le
  have hne : ¬((Interpolator.mkI duration delay).AdvanceList dts).duration = 0 := by
    rw [hfields.1]; exact hdur.ne'
  have hne2 : ¬(((Interpolator.mkI duration delay).AdvanceList dts).Advance
      dt).duration = 0 := hne
  refine ⟨((Interpolator.mkI duration delay).AdvanceList dts).tval,
    (((Interpolator.mkI duration delay).AdvanceList dts).Advance dt).tval,
    getT_eq_tval _ hne, getT_eq_tval _ hne2,
    tval_nonneg _ hdur2, tval_le_one _ hdur2, ?_, ?_⟩
  · exact tval_mono
      ((Interpolator.mkI duration delay).AdvanceList dts).elapsedTime
      (((Interpolator.mkI duration delay).AdvanceList dts).elapsedTime + dt)
      ((Interpolator.mkI duration delay).AdvanceList dts).duration
      ((Interpolator.mkI duration delay).AdvanceList dts).delay
      hdur2 (by linarith)
  · intro h
    exact tval_pinned _ (by rw [hfields.1, hfields.2]; exact h)

/-- Witness for `interpolator_getT_spec` at duration 1, delay 0, the single
advance `[1/2]`, and a further advance by `1/2`. -/
theorem interpolator_getT_spec_witness :
    ∃ t1 t2 : ℚ,
      ((Interpolator.mkI 1 0).AdvanceList [1/2]).GetT = some t1
      ∧ (((Interpolator.mkI 1 0).AdvanceList [1/2]).Advance (1/2)).GetT = some t2
      ∧ 0 ≤ t1 ∧ t1 ≤ 1 ∧ t1 ≤ t2
      ∧ (((Interpolator.mkI 1 0).AdvanceList [1/2]).elapsedTime > 1 + 0 → t1 = 1) :=
  interpolator_getT_spec 1 0 (by norm_num) (by norm_num) [1/2]
    (by intro d hd; simp at hd; rw [hd]; norm_num) (1/2) (by norm_num)

/-- Every member of the front Group gets its `Advance` invoked by
`AnimationSystem::Advance` (whether or not it then finishes). -/
theorem advanceLoop_advanced_mem (dt : ℚ) (a : Animation) :
    ∀ (l : List Animation) (cache : PCache), a ∈ l →
      Event.advanced a.id ∈ (advanceLoop dt l cache).2.2 := by
  intro l
  induction l with
  | nil => intro cache ha; cases ha
  | cons b rest ih =>
    intro cache ha
    rcases List.mem_cons.mp ha with h | h
    · subst h
      by_cases hf : (a.Advance dt).IsFinished <;> simp [advanceLoop, hf]
    · by_cases hf : (b.Advance dt).IsFinished
      · have hm := ih (SaveAnimationResult cache (b.Advance dt)) h
        simp [advanceLoop, hf, hm]
      · have hm := ih cache h
        simp [advanceLoop, hf, hm]

/-- Claim C1, counterexample: `animA` and `animB` are both marked mixable
and touch disjoint objects, yet after `AddAnimation(animA, force=false)` and
`AddAnimation(animB, force=false)` on the empty system, `animB` is NOT in
the head Group with `animA`: `Animation::CouldBeMixedWith` rejects any new
animation that is itself mixable (`animation.m_couldBeMixed` must be false),
so `animB` lands in a second Group. -/
theorem mixable_pair_counterexample :
    animA.couldBeMixed = true ∧ animB.couldBeMixed = true
    ∧ (∀ o ∈ animB.objects, animA.HasObject o = false)
    ∧ ((AnimationSystem.empty.AddAnimation animA false).1.AddAnimation
        animB false).1.animationChain = [[animA], [animB]]
    ∧ animB ∉ [animA] := by decide

/-- Claim C1, amended: two animations with disjoint object sets, the FIRST
mixable and the SECOND NOT mixable, added via `AddAnimation(force=false)` on
the empty system, land in the same (head) Group, and one subsequent
`Advance(dt)` call invokes `Advance` on both. -/
theorem disjoint_mixable_same_group (A B : Animation) (dt : ℚ)
    (hA : A.couldBeMixed = true) (hB : B.couldBeMixed = false)
    (hdisj : ∀ o ∈ B.objects, A.HasObject o = false) :
    ((AnimationSystem.empty.AddAnimation A false).1.AddAnimation
        B false).1.animationChain = [[A, B]]
    ∧ Event.advanced A.id ∈
        ((((AnimationSystem.empty.AddAnimation A false).1.AddAnimation
            B false).1.Advance dt)).2
    ∧ Event.advanced B.id ∈
        ((((AnimationSystem.empty.AddAnimation A false).1.AddAnimation
            B false).1.Advance dt)).2 := by
  have hmix : A.CouldBeMixedWith B = true := by
    simp only [Animation.CouldBeMixedWith, hA, hB, Bool.not_true, Bool.or_false,
      Bool.false_or, Bool.false_eq_true, if_false, List.all_eq_true]
    intro o ho
    simp [hdisj o ho]
  have h1 : AnimationSystem.empty.AddAnimation A false
      = ({ animationChain := [[A]], propertyCache := [] }, [Event.onStart A.id]) := rfl
  have h2 : (({ animationChain := [[A]], propertyCache := [] } :
        AnimationSystem).AddAnimation B false)
      = ({ animationChain := [[A, B]], propertyCache := [] }, [Event.onStart B.id]) := by
    simp [AnimationSystem.AddAnimation, addLoop, scanGroup, hmix]
  have hchain : ((AnimationSystem.empty.AddAnimation A false).1.AddAnimation B false).1
      = { animationChain := [[A, B]], propertyCache := [] } := by
    rw [h1]
    exact congrArg Prod.fst h2
  refine ⟨by rw [hchain], ?_, ?_⟩
  · rw [hchain]
    show Event.advanced A.id ∈ (advanceLoop dt [A, B] []).2.2
    exact advanceLoop_advanced_mem dt A [A, B] [] (by simp)
  · rw [hchain]
    show Event.advanced B.id ∈ (advanceLoop dt [A, B] []).2.2
    exact advanceLoop_advanced_mem dt B [A, B] [] (by simp)

/-- Witness for `disjoint_mixable_same_group` at `animA2` (mixable, object 0),
`animB2` (non-mixable, object 1) and `dt = 1`. -/
theorem disjoint_mixable_same_group_witness :
    ((AnimationSystem.empty.AddAnimation animA2 false).1.AddAnimation
        animB2 false).1.animationChain = [[animA2, animB2]]
    ∧ Event.advanced animA2.id ∈
        ((((AnimationSystem.empty.AddAnimation animA2 false).1.AddAnimation
            animB2 false).1.Advance 1)).2
    ∧ Event.advanced animB2.id ∈
        ((((AnimationSystem.empty.AddAnimation animA2 false).1.AddAnimation
            animB2 false).1.Advance 1)).2 :=
  disjoint_mixable_same_group animA2 animB2 1 rfl rfl (by decide)

/-- A system state with an empty chain but a non-empty property cache. -/
def c2State : AnimationSystem :=
  { animationChain := [], propertyCache := [((0, 0), PropValue.num 5)] }

/-- Claim C2, counterexample: with an empty Chain and a cache entry whose
key's object component is 0, `AnimationExists(0)` returns false (the source
returns false immediately whenever the chain is empty, before ever
consulting the cache), contradicting the claim that it returns true. -/
theorem animationExists_empty_chain_counterexample :
    c2State.animationChain = []
    ∧ (∃ e ∈ c2State.propertyCache, e.1.1 = 0)
    ∧ c2State.AnimationExists 0 = false := by decide

/-- Claim C2, amended: `AnimationExists(o)` is true iff the Chain is
non-empty AND (some animation of the head Group has object `o`, or the cache
has an entry whose key's object component is `o`); in particular it is false
whenever the Chain is empty, regardless of the cache. -/
theorem animationExists_iff (st : AnimationSystem) (o : Nat) :
    st.AnimationExists o = true ↔
      st.animationChain ≠ []
      ∧ ((∃ a ∈ st.animationChain.headI, a.HasObject o = true)
         ∨ ∃ e ∈ st.propertyCache, e.1.1 = o) := by
  rcases st with ⟨chain, cache⟩
  cases chain with
  | nil => simp [AnimationSystem.AnimationExists]
  | cons front rest =>
    simp [AnimationSystem.AnimationExists, List.any_eq_true]

/-- After erasing a key from the cache, looking that key up yields nothing. -/
theorem cacheLookup_erase_self (cache : PCache) (key : Nat × Nat) :
    cacheLookup (cacheErase cache key) key = none := by
  induction cache with
  | nil => rfl
  | cons e rest ih =>
    by_cases h : e.1 = key
    · simpa [cacheErase, List.filter_cons, h] using ih
    · simpa [cacheErase, cacheLookup, List.filter_cons, List.find?_cons, h] using ih

/-- Map semantics of `cacheInsert`: the inserted key maps to the new value,
all other keys are unaffected. -/
theorem cacheLookup_insert (cache : PCache) (key : Nat × Nat) (value : PropValue)
    (k2 : Nat × Nat) :
    cacheLookup (cacheInsert cache key value) k2
      = if k2 = key then some value else cacheLookup cache k2 := by
  induction cache with
  | nil =>
    by_cases h : k2 = key
    · simp [cacheInsert, cacheErase, cacheLookup, h]
    · simp [cacheInsert, cacheErase, cacheLookup, h, Ne.symm h]
  | cons e rest ih =>
    by_cases he : e.1 = key
    · have hstep : cacheInsert (e :: rest) key value = cacheInsert rest key value := by
        simp [cacheInsert, cacheErase, List.filter_cons, he]
      rw [hstep, ih]
      by_cases h2 : k2 = key
      · simp [h2]
      · have hek : ¬e.1 = k2 := by rw [he]; exact fun hh => h2 hh.symm
        simp [h2, cacheLookup, List.find?_cons, hek]
    · have hstep : cacheInsert (e :: rest) key value = e :: cacheInsert rest key value := by
        simp [cacheInsert, cacheErase, List.filter_cons, he]
      rw [hstep]
      by_cases hek : e.1 = k2
      · have h2 : ¬k2 = key := fun hh => he (hek.trans hh)
        simp [cacheLookup, List.find?_cons, hek, h2]
      · simpa [cacheLookup, List.find?_cons, hek] using ih

/-- Effect on lookups of the inner loop of `SaveAnimationResult` (all
properties of one object). -/
theorem lookup_foldl_inner (a : Animation) (o : Nat) (ps : List Nat) (c : PCache)
    (k : Nat × Nat) :
    cacheLookup (ps.foldl (fun c2 p => cacheInsert c2 (o, p) (a.GetProperty o p)) c) k
      = if k.1 = o ∧ k.2 ∈ ps then some (a.GetProperty k.1 k.2)
        else cacheLookup c k := by
  induction ps generalizing c with
  | nil => simp
  | cons p ps ih =>
    simp only [List.foldl_cons]
    rw [ih]
    by_cases h1 : k.1 = o ∧ k.2 ∈ ps
    · rw [if_pos h1, if_pos ⟨h1.1, List.mem_cons_of_mem p h1.2⟩]
    · rw [if_neg h1, cacheLookup_insert]
      by_cases h2 : k = (o, p)
      · subst h2
        simp
      · rw [if_neg h2, if_neg]
        intro hcon
        rcases hcon with ⟨ho, hmem⟩
        rcases List.mem_cons.mp hmem with hp | hp
        · exact h2 (Prod.ext ho hp)
        · exact h1 ⟨ho, hp⟩

/-- Effect on lookups of `SaveAnimationResult`'s double loop: a key declared
by the animation maps to the animation's current value, all other keys keep
their old mapping. -/
theorem lookup_foldl_outer (a : Animation) (os : List Nat) (c : PCache)
    (k : Nat × Nat) :
    cacheLookup (os.foldl (fun c2 o =>
        (a.GetProperties o).foldl (fun c3 p =>
          cacheInsert c3 (o, p) (a.GetProperty o p)) c2) c) k
      = if k.1 ∈ os ∧ k.2 ∈ a.GetProperties k.1 then some (a.GetProperty k.1 k.2)
        else cacheLookup c k := by
  induction os generalizing c with
  | nil => simp
  | cons o os ih =>
    simp only [List.foldl_cons]
    rw [ih]
    by_cases h1 : k.1 ∈ os ∧ k.2 ∈ a.GetProperties k.1
    · rw [if_pos h1, if_pos ⟨List.mem_cons_of_mem o h1.1, h1.2⟩]
    · rw [if_neg h1, lookup_foldl_inner]
      by_cases h2 : k.1 = o ∧ k.2 ∈ a.GetProperties o
      · rw [if_pos h2, if_pos]
        refine ⟨?_, ?_⟩
        · rw [h2.1]; exact List.mem_cons_self o os
        · rw [h2.1]; exact h2.2
      · rw [if_neg h2, if_neg]
        intro hcon
        rcases hcon with ⟨hmem, hp⟩
        rcases List.mem_cons.mp hmem with hh | hh
        · exact h2 ⟨hh, by rw [← hh]; exact hp⟩
        · exact h1 ⟨hh, hp⟩

/-- `SaveAnimationResult` writes the animation's current value for every
(object, property) pair the animation declares. -/
theorem lookup_save (cache : PCache) (a : Animation) (o p : Nat)
    (ho : o ∈ a.objects) (hp : p ∈ a.GetProperties o) :
    cacheLookup (SaveAnimationResult cache a) (o, p) = some (a.GetProperty o p) := by
  unfold SaveAnimationResult
  rw [lookup_foldl_outer]
  simp [ho, hp]

/-- Claim C5: full characterization of `GetProperty(object, property, current)`.
The fallback `current` is returned (with the state untouched) exactly on the
branch where no head-Group animation has the property and the cache has no
entry for the key; a head-Group animation with the property short-circuits
with its own value; otherwise a cache hit is returned and consumed, so that
an immediately repeated identical call returns the fallback. -/
theorem getProperty_fallback_spec (st : AnimationSystem) (o p : Nat) (v : PropValue) :
    (st.headFind o p = none ∧ cacheLookup st.propertyCache (o, p) = none →
        st.GetProperty o p v = (v, st))
    ∧ (∀ a, st.headFind o p = some a →
        st.GetProperty o p v = (a.GetProperty o p, st))
    ∧ (∀ w, st.headFind o p = none → cacheLookup st.propertyCache (o, p) = some w →
        (st.GetProperty o p v).1 = w
        ∧ cacheLookup (st.GetProperty o p v).2.propertyCache (o, p) = none
        ∧ (st.GetProperty o p v).2.GetProperty o p v = (v, (st.GetProperty o p v).2)) := by
  refine ⟨?_, ?_, ?_⟩
  · rintro ⟨h1, h2⟩
    simp [AnimationSystem.GetProperty, h1, h2]
  · intro a ha
    simp [AnimationSystem.GetProperty, ha]
  · intro w h1 h2
    have hres : st.GetProperty o p v
        = (w, { st with propertyCache := cacheErase st.propertyCache (o, p) }) := by
      simp [AnimationSystem.GetProperty, h1, h2]
    have hhead2 : AnimationSystem.headFind
        { st with propertyCache := cacheErase st.propertyCache (o, p) } o p = none := h1
    refine ⟨by rw [hres], ?_, ?_⟩
    · rw [hres]
      exact cacheLookup_erase_self st.propertyCache (o, p)
    · rw [hres]
      simp [AnimationSystem.GetProperty, hhead2, cacheLookup_erase_self]

/-- A system state with an empty chain and one cached value for key (0,0). -/
def c5State : AnimationSystem :=
  { animationChain := [], propertyCache := [((0, 0), PropValue.num 7)] }

/-- Witness for `getProperty_fallback_spec` at `c5State`: the cached value 7
is returned once, consumed, and the repeated call yields the fallback 9. -/
theorem getProperty_fallback_spec_witness :
    (c5State.GetProperty 0 0 (PropValue.num 9)).1 = PropValue.num 7
    ∧ cacheLookup (c5State.GetProperty 0 0 (PropValue.num 9)).2.propertyCache (0, 0) = none
    ∧ (c5State.GetProperty 0 0 (PropValue.num 9)).2.GetProperty 0 0 (PropValue.num 9)
        = (PropValue.num 9, (c5State.GetProperty 0 0 (PropValue.num 9)).2) :=
  (getProperty_fallback_spec c5State 0 0 (PropValue.num 9)).2.2 (PropValue.num 7) rfl rfl

/-- Claim C6: forced eviction.  With the Chain holding the single Group `[D]`,
`D` interruptible and conflicting with `C` (`D.CouldBeMixedWith(C)` false),
`AddAnimation(C, force=true)` removes `D` from the Chain with its `Interrupt`
invoked, stores `D`'s current value in the cache for every (object, property)
pair `D` declares, and puts `C` (with `OnStart` invoked) into that same
Group. -/
theorem forced_eviction_spec (D C : Animation) (cache : PCache)
    (hInt : D.couldBeInterrupted = true)
    (hMix : D.CouldBeMixedWith C = false) :
    (({ animationChain := [[D]], propertyCache := cache } :
        AnimationSystem).AddAnimation C true).1.animationChain = [[C]]
    ∧ (({ animationChain := [[D]], propertyCache := cache } :
        AnimationSystem).AddAnimation C true).2
        = [Event.interrupt D.id, Event.onStart C.id]
    ∧ ∀ o ∈ D.objects, ∀ p ∈ D.GetProperties o,
        cacheLookup ((({ animationChain := [[D]], propertyCache := cache } :
            AnimationSystem).AddAnimation C true).1.propertyCache) (o, p)
          = some (D.GetProperty o p) := by
  have hscan : scanGroup C true [D] = ([], true, [D]) := by
    simp [scanGroup, hMix, Animation.CouldBeInterrupted, hInt]
  have hadd : ({ animationChain := [[D]], propertyCache := cache } :
      AnimationSystem).AddAnimation C true
      = ({ animationChain := [[C]],
           propertyCache := SaveAnimationResult cache D },
         [Event.interrupt D.id, Event.onStart C.id]) := by
    simp [AnimationSystem.AddAnimation, addLoop, hscan]
  refine ⟨by rw [hadd], by rw [hadd], ?_⟩
  intro o ho p hp
  rw [hadd]
  exact lookup_save cache D o p ho hp

/-- An interruptible, non-mixable animation on object 0 (evictee). -/
def animD6 : Animation :=
  { id := 8, couldBeMixed := false, couldBeInterrupted := true,
    objects := [0], propsMap := [(0, [0])],
    values := [((0, 0), PropValue.num 5)], elapsed := 0, duration := 1 }

/-- A forcing animation conflicting with `animD6`. -/
def animC6 : Animation :=
  { id := 9, couldBeMixed := false, couldBeInterrupted := true,
    objects := [0], propsMap := [(0, [0])],
    values := [((0, 0), PropValue.num 6)], elapsed := 0, duration := 1 }

/-- Witness for `forced_eviction_spec` at `animD6`, `animC6` and the empty
cache. -/
theorem forced_eviction_spec_witness :
    (({ animationChain := [[animD6]], propertyCache := [] } :
        AnimationSystem).AddAnimation animC6 true).1.animationChain = [[animC6]]
    ∧ (({ animationChain := [[animD6]], propertyCache := [] } :
        AnimationSystem).AddAnimation animC6 true).2
        = [Event.interrupt 8, Event.onStart 9]
    ∧ cacheLookup ((({ animationChain := [[animD6]], propertyCache := [] } :
        AnimationSystem).AddAnimation animC6 true).1.propertyCache) (0, 0)
        = some (PropValue.num 5) := by
  have h := forced_eviction_spec animD6 animC6 [] rfl rfl
  exact ⟨h.1, h.2.1, h.2.2 0 (by decide) 0 (by decide)⟩

/-- One `Advance` with an empty head Group changes nothing and emits no
events. -/
theorem advance_empty_head (st : AnimationSystem) (dt : ℚ)
    (h : st.animationChain.head? = some []) : st.Advance dt = (st, []) := by
  rcases st with ⟨chain, cache⟩
  cases chain with
  | nil => simp at h
  | cons front rest =>
    simp only [List.head?_cons, Option.some.injEq] at h
    subst h
    simp [AnimationSystem.Advance, advanceLoop]

/-- Any number of `Advance` calls with an empty head Group leave the system
unchanged: later Groups are never promoted by `Advance` alone. -/
theorem advanceMany_empty_head (st : AnimationSystem) (dts : List ℚ)
    (h : st.animationChain.head? = some []) : st.AdvanceMany dts = st := by
  induction dts with
  | nil => rfl
  | cons d ds ih =>
    show List.foldl (fun s d2 => (s.Advance d2).1) st (d :: ds) = st
    rw [List.foldl_cons, congrArg Prod.fst (advance_empty_head st d h)]
    exact ih

/-- Claim C7: `Advance` leaves every non-head Group untouched (the chain's
tail and group count are preserved), and once the head Group is empty, any
sequence of further `Advance` calls leaves the whole system unchanged —
the empty head Group is never removed and later Groups never advance. -/
theorem advance_head_only_spec (st : AnimationSystem) (dt : ℚ) (dts : List ℚ) :
    (st.Advance dt).1.animationChain.tail = st.animationChain.tail
    ∧ (st.Advance dt).1.animationChain.length = st.animationChain.length
    ∧ (st.animationChain.head? = some [] →
        st.AdvanceMany dts = st ∧ st.Advance dt = (st, [])) := by
  rcases st with ⟨chain, cache⟩
  cases chain with
  | nil =>
    refine ⟨rfl, rfl, ?_⟩
    intro h
    simp at h
  | cons front rest =>
    refine ⟨?_, ?_, ?_⟩
    · simp [AnimationSystem.Advance]
    · simp [AnimationSystem.Advance]
    · intro h
      exact ⟨advanceMany_empty_head _ dts h, advance_empty_head _ dt h⟩

/-- A state whose head Group is empty, with a later latent Group. -/
def c7State : AnimationSystem :=
  { animationChain := [[], [animB]], propertyCache := [((5, 5), PropValue.num 9)] }

/-- Witness for `advance_head_only_spec` at `c7State`, `dt = 1` and the
advance sequence `[1, 2]`. -/
theorem advance_head_only_spec_witness :
    (c7State.Advance 1).1.animationChain.tail = c7State.animationChain.tail
    ∧ (c7State.Advance 1).1.animationChain.length = c7State.animationChain.length
    ∧ (c7State.AdvanceMany [1, 2] = c7State ∧ c7State.Advance 1 = (c7State, [])) := by
  have h := advance_head_only_spec c7State 1 [1, 2]
  exact ⟨h.1, h.2.1, h.2.2 rfl⟩

/-- Claim C8: reading a property whose interpolator is absent from a
`FollowAnimation` (here `Scale`, absent whenever `SetScale` was called with
equal scales, which leaves the animation unchanged) trips the debug `ASSERT`
(the Boolean flag) and, in non-debug builds, falls through to returning the
degenerate default value `0.0` instead of signalling an error. -/
theorem follow_getProperty_absent_spec (f : FollowAnimation) (s : ℚ)
    (h : f.scaleInterpolator = none) :
    f.SetScale s s = f
    ∧ f.GetProperty Animation.MapPlane Animation.Scale = (true, PropValue.num 0) := by
  constructor
  · simp [FollowAnimation.SetScale]
  · simp [FollowAnimation.GetProperty, Animation.Position, Animation.Scale,
      Animation.MapPlane, h]

/-- Witness for `follow_getProperty_absent_spec` on the freshly constructed
`FollowAnimation` and `s = 1`. -/
theorem follow_getProperty_absent_spec_witness :
    FollowAnimation.mkF.SetScale 1 1 = FollowAnimation.mkF
    ∧ FollowAnimation.mkF.GetProperty Animation.MapPlane Animation.Scale
        = (true, PropValue.num 0) :=
  follow_getProperty_absent_spec FollowAnimation.mkF 1 rfl

/-- Claim C9: `SequenceAnimation::Advance` on a non-empty sequence ticks only
the head member (the tail passes through untouched); when the advanced head
is finished it is popped with its `OnFinish` invoked; and no `OnStart` is
ever emitted, in particular not for the newly promoted head. -/
theorem sequence_advance_spec (front : Animation) (rest : List Animation) (dt : ℚ) :
    ((front.Advance dt).IsFinished = true →
        (SequenceAnimation.mk (front :: rest)).Advance dt
          = (SequenceAnimation.mk rest,
             [Event.advanced front.id, Event.onFinish front.id]))
    ∧ ((front.Advance dt).IsFinished = false →
        (SequenceAnimation.mk (front :: rest)).Advance dt
          = (SequenceAnimation.mk (front.Advance dt :: rest),
             [Event.advanced front.id]))
    ∧ ∀ i, Event.onStart i ∉ ((SequenceAnimation.mk (front :: rest)).Advance dt).2 := by
  refine ⟨?_, ?_, ?_⟩
  · intro h
    simp [SequenceAnimation.Advance, h]
  · intro h
    simp [SequenceAnimation.Advance, h]
  · intro i
    by_cases h : (front.Advance dt).IsFinished
    · simp [SequenceAnimation.Advance, h]
    · simp [SequenceAnimation.Advance, h]

/-- First member of the witness sequence (finishes after 2 seconds). -/
def seqA : Animation :=
  { id := 10, couldBeMixed := false, couldBeInterrupted := true,
    objects := [0], propsMap := [(0, [0])],
    values := [((0, 0), PropValue.num 7)], elapsed := 0, duration := 1 }

/-- Second member of the witness sequence. -/
def seqB : Animation :=
  { id := 11, couldBeMixed := false, couldBeInterrupted := true,
    objects := [0], propsMap := [(0, [0])],
    values := [((0, 0), PropValue.num 8)], elapsed := 0, duration := 1 }

/-- Witness for `sequence_advance_spec`: advancing `[seqA, seqB]` by 2
finishes and pops `seqA`, and no `OnStart` is emitted for `seqB`. -/
theorem sequence_advance_spec_witness :
    (SequenceAnimation.mk [seqA, seqB]).Advance 2
      = (SequenceAnimation.mk [seqB], [Event.advanced 10, Event.onFinish 10]) := by
  have hfin : (seqA.Advance 2).IsFinished = true := by
    norm_num [Animation.Advance, Animation.IsFinished, seqA]
  exact (sequence_advance_spec seqA [seqB] 2).1 hfin

/-- Mixable, interruptible animation on object 0 (evicted during the
rejected scan). -/
def animD1 : Animation :=
  { id := 5, couldBeMixed := true, couldBeInterrupted := true,
    objects := [0], propsMap := [(0, [0])],
    values := [((0, 0), PropValue.num 11)], elapsed := 0, duration := 1 }

/-- Non-mixable, NON-interruptible animation on object 1 (causes the Group to
be rejected after `animD1` was already evicted). -/
def animD2 : Animation :=
  { id := 6, couldBeMixed := false, couldBeInterrupted := false,
    objects := [1], propsMap := [(1, [0])],
    values := [((1, 0), PropValue.num 22)], elapsed := 0, duration := 1 }

/-- Forcing animation conflicting with both `animD1` (object 0, property 0)
and `animD2` (object 1, property 0). -/
def animE : Animation :=
  { id := 7, couldBeMixed := false, couldBeInterrupted := true,
    objects := [0, 1], propsMap := [(0, [0]), (1, [0])],
    values := [((0, 0), PropValue.num 33), ((1, 0), PropValue.num 44)],
    elapsed := 0, duration := 1 }

/-- Claim C10: `AddAnimation(force=true)` permanently mutates a Group it
ultimately rejects.  Starting from the reachable chain `[[animD1, animD2]]`,
adding `animE` with force first evicts the interruptible `animD1` (interrupt
event, cache entry for (0,0)), then hits the non-interruptible `animD2`, so
the Group is rejected and `animE` is pushed as a new Group — yet `animD1`
stays removed and its cached value remains. -/
theorem eviction_without_rollback :
    ((AnimationSystem.empty.AddAnimation animD1 false).1.AddAnimation
        animD2 false).1.animationChain = [[animD1, animD2]]
    ∧ (((AnimationSystem.empty.AddAnimation animD1 false).1.AddAnimation
        animD2 false).1.AddAnimation animE true).1.animationChain
        = [[animD2], [animE]]
    ∧ (((AnimationSystem.empty.AddAnimation animD1 false).1.AddAnimation
        animD2 false).1.AddAnimation animE true).2
        = [Event.interrupt 5, Event.onStart 7]
    ∧ cacheLookup (((AnimationSystem.empty.AddAnimation animD1 false).1.AddAnimation
        animD2 false).1.AddAnimation animE true).1.propertyCache (0, 0)
        = some (PropValue.num 11) := by decide
